import Mathlib

/-!
Verification of the chessbuddy engine-analysis pipeline
(`cbuddy/engine_worker.py`, `cbuddy/api.py`, schema `alembic/versions/0001_initial.py`)
against its natural-language specification.

The Python pipeline is shallowly embedded: the UCI engine is modelled as a
deterministic oracle parameterised by a time budget (the spec treats the engine
as "a synchronous oracle for a given position with a time or depth budget"),
positions carry an abstract identity plus the side to move, database tables are
lists of rows, and the conflict-tolerant inserts (`on conflict do nothing`)
become insert-if-absent guarded by the corresponding unique constraint.
-/

namespace Chessbuddy

/-- A board position as far as the pipeline observes it: an abstract identity
(standing for the FEN's piece placement) plus the side to move.  The engine's
scores are reported from the side-to-move's point of view, so `whiteToMove`
is the one piece of FEN content the score convention depends on. -/
structure Position where
  pid : Nat
  whiteToMove : Bool
deriving DecidableEq, Repr

/-- Mirror of the `EvalResult` dataclass in `engine_worker.py`:
`cp` (mate scores already folded to ±10000 by `score(mate_score=10_000)`),
the first move of the principal variation, and the reported depth. -/
structure EvalResult where
  cp : Int
  best_uci : Option String
  depth : Option Nat
deriving DecidableEq, Repr

/-- Deterministic model of the external engine.  `truth b p` is the engine's
score of position-identity `p` under time budget `b`, expressed from White's
point of view; `best` and `depth` are the reported best move and depth. -/
structure EngineModel where
  truth : Nat → Nat → Int
  best : Nat → Nat → Option String
  depth : Nat → Nat → Option Nat

/-- Score of position `p` from the point of view of White (`white = true`) or
Black (`white = false`), under budget `b`. -/
def scoreFor (E : EngineModel) (b : Nat) (white : Bool) (p : Position) : Int :=
  if white then E.truth b p.pid else - E.truth b p.pid

/-- Embedding of `_eval_fen` (first MultiPV line, the only one the pipeline
reads): `li["score"].pov(board.turn)` reports the score from the perspective
of the side to move in the analysed FEN. -/
def evalFen (E : EngineModel) (b : Nat) (p : Position) : EvalResult :=
  { cp := scoreFor E b p.whiteToMove p
    best_uci := E.best b p.pid
    depth := E.depth b p.pid }

/-- Mirror of `HighlightThresholds` in `config.py`. -/
structure HighlightThresholds where
  brilliant_cp : Int
  great_cp : Int
  inaccuracy_cp : Int
  mistake_cp : Int
  blunder_cp : Int
  near_best_tolerance_cp : Int
deriving DecidableEq, Repr

/-- The default threshold values from `config.py` (env-var fallbacks). -/
def defaultThresholds : HighlightThresholds :=
  { brilliant_cp := 900
    great_cp := 600
    inaccuracy_cp := -400
    mistake_cp := -800
    blunder_cp := -1200
    near_best_tolerance_cp := 10 }

/-- Embedding of `_classify_delta` in `engine_worker.py`: bands checked in
source order, returning the category key or `none`. -/
def classifyDelta (th : HighlightThresholds) (delta_cp : Int) : Option String :=
  if delta_cp ≤ th.blunder_cp then some "blunder"
  else if delta_cp ≤ th.mistake_cp then some "mistake"
  else if delta_cp ≤ th.inaccuracy_cp then some "inaccuracy"
  else if delta_cp ≥ th.brilliant_cp then some "brilliant"
  else if delta_cp ≥ th.great_cp then some "great"
  else none

/-- A row of the `chessbuddy.moves` table, restricted to the columns the
pipeline reads (`select id, ply, fen_before, fen_after ... order by ply asc`).
Games are fetched in ply order. -/
structure MoveRow where
  id : Nat
  game_id : Nat
  ply : Nat
  fen_before : Option Position
  fen_after : Option Position
deriving DecidableEq, Repr

/-- A row of `chessbuddy.engine_evaluations`, restricted to the columns the
pipeline writes. -/
structure EvalRow where
  game_id : Nat
  move_id : Nat
  ply : Nat
  eval_side : Bool
  score_cp : Int
  best_move_uci : Option String
  depth : Option Nat
  engine_name : String
deriving DecidableEq, Repr

/-- The unique constraint `unique (move_id, engine_name, depth)` on
`engine_evaluations`, with PostgreSQL's null-distinct semantics: two rows
conflict only when the depths are both non-null and equal. -/
def evalKeyConflict (r s : EvalRow) : Bool :=
  r.move_id == s.move_id && r.engine_name == s.engine_name &&
    (match r.depth, s.depth with
     | some d, some e => d == e
     | _, _ => false)

/-- Conflict-tolerant insert (`insert ... on conflict do nothing`) into the
evaluation store. -/
def insertEval (store : List EvalRow) (r : EvalRow) : List EvalRow :=
  if store.any (fun s => evalKeyConflict r s) then store else store ++ [r]

/-- The evaluation row `analyse_game_fast` and `deep_refine_candidates` build
for an evaluated position of move `m`: `eval_side` is `'w'` iff the ply is
odd, scores come from the engine result. -/
def mkEvalRow (gid : Nat) (m : MoveRow) (res : EvalResult) : EvalRow :=
  { game_id := gid
    move_id := m.id
    ply := m.ply
    eval_side := m.ply % 2 == 1
    score_cp := res.cp
    best_move_uci := res.best_uci
    depth := res.depth
    engine_name := "stockfish" }

/-- The evaluation rows one move contributes in the fast pass: one per
non-null FEN, `fen_before` first, then `fen_after`. -/
def fastRowsOfMove (E : EngineModel) (fastBudget : Nat) (gid : Nat) (m : MoveRow) :
    List EvalRow :=
  ((m.fen_before.toList).map (fun f => mkEvalRow gid m (evalFen E fastBudget f))) ++
    ((m.fen_after.toList).map (fun f => mkEvalRow gid m (evalFen E fastBudget f)))

/-- Embedding of `analyse_game_fast`: for each move of the game in ply order,
evaluate `fen_before` and `fen_after` (skipping null FENs) at the fast time
budget and insert a row per evaluation, `on conflict do nothing`. -/
def analyse_game_fast (E : EngineModel) (fastBudget : Nat) (gid : Nat)
    (moves : List MoveRow) (store : List EvalRow) : List EvalRow :=
  moves.foldl (fun st m => (fastRowsOfMove E fastBudget gid m).foldl insertEval st) store

/-- All evaluation rows one fast-pass run attempts to insert, in order. -/
def gameRows (E : EngineModel) (fastBudget : Nat) (gid : Nat)
    (moves : List MoveRow) : List EvalRow :=
  moves.flatMap (fastRowsOfMove E fastBudget gid)

/-- The engine oracle always reports a search depth (true of any UCI engine's
`info` lines; the spec's oracle contract returns a `depth` field). -/
def EngineModel.reportsDepth (E : EngineModel) : Prop :=
  ∀ b p, (E.depth b p).isSome

/-- A row of `chessbuddy.move_categories`. -/
structure CategoryRow where
  id : Nat
  key : String
deriving DecidableEq, Repr

/-- One row of the windowed CTE in `annotate_highlights`: the move, its ply,
`before_cp = lag(score_cp)`, `after_cp = score_cp`, and their difference. -/
structure DeltaRow where
  move_id : Nat
  ply : Nat
  before_cp : Int
  after_cp : Int
  delta : Int
deriving DecidableEq, Repr

/-- The join in `annotate_highlights`' CTE: moves of the game joined with all
their evaluation rows, in ply order.  The SQL window orders by `ply` alone, so
the order among a move's own rows is unspecified; the model uses store
(insertion) order, which is what a sequential scan returns. -/
def annotateJoin (gid : Nat) (moves : List MoveRow) (evals : List EvalRow) :
    List (MoveRow × EvalRow) :=
  (moves.filter (fun m => m.game_id == gid)).flatMap
    (fun m => (evals.filter (fun e => e.move_id == m.id)).map (fun e => (m, e)))

/-- The `lag(score_cp) over (order by ply)` window plus the
`where before_cp is not null` filter: each joined row after the first is
paired with its predecessor's score. -/
def lagRows (rows : List (MoveRow × EvalRow)) : List DeltaRow :=
  (rows.zip rows.tail).map (fun pc =>
    { move_id := pc.2.1.id
      ply := pc.2.1.ply
      before_cp := pc.1.2.score_cp
      after_cp := pc.2.2.score_cp
      delta := pc.2.2.score_cp - pc.1.2.score_cp })

/-- The delta rows `annotate_highlights` feeds to `_classify_delta`. -/
def annotateDeltas (gid : Nat) (moves : List MoveRow) (evals : List EvalRow) :
    List DeltaRow :=
  lagRows (annotateJoin gid moves evals)

/-- A row of `chessbuddy.move_highlights`, restricted to the columns the
pipeline touches. -/
structure HighlightRow where
  id : Nat
  game_id : Nat
  move_id : Nat
  category_id : Nat
  ply : Nat
  eval_before_cp : Int
  eval_after_cp : Int
  eval_delta_cp : Int
deriving DecidableEq, Repr

/-- Fresh `bigserial` id for the highlight store: one more than the maximum
existing id. -/
def freshHighlightId (hs : List HighlightRow) : Nat :=
  hs.foldl (fun a h => max a h.id) 0 + 1

/-- Conflict-tolerant insert into `move_highlights`, guarded by the
`unique (move_id, category_id)` constraint. -/
def insertHighlight (hs : List HighlightRow) (h : HighlightRow) : List HighlightRow :=
  if hs.any (fun x => x.move_id == h.move_id && x.category_id == h.category_id)
  then hs else hs ++ [h]

/-- Embedding of `annotate_highlights`: classify each windowed delta, look up
the category row by key, and insert a highlight `on conflict do nothing`. -/
def annotate_highlights (cats : List CategoryRow) (th : HighlightThresholds)
    (gid : Nat) (moves : List MoveRow) (evals : List EvalRow)
    (hls : List HighlightRow) : List HighlightRow :=
  (annotateDeltas gid moves evals).foldl (fun hs r =>
    match classifyDelta th r.delta with
    | none => hs
    | some key =>
      match cats.find? (fun c => c.key == key) with
      | none => hs
      | some c =>
        insertHighlight hs
          { id := freshHighlightId hs
            game_id := gid
            move_id := r.move_id
            category_id := c.id
            ply := r.ply
            eval_before_cp := r.before_cp
            eval_after_cp := r.after_cp
            eval_delta_cp := r.delta }) hls

/-- One iteration of the loop in `deep_refine_candidates`, over the state
(highlight store, evaluation store): skip candidates without a joined move or
with a null FEN; otherwise re-evaluate both FENs at the deep budget, update
the candidate highlight's three evaluation fields in place, and insert a new
evaluation row for the position after the move, `on conflict do nothing`. -/
def deepRefineStep (E : EngineModel) (deepBudget : Nat) (gid : Nat)
    (moves : List MoveRow) (st : List HighlightRow × List EvalRow)
    (c : HighlightRow) : List HighlightRow × List EvalRow :=
  match moves.find? (fun m => m.id == c.move_id) with
  | none => st
  | some m =>
    match m.fen_before, m.fen_after with
    | some fb, some fa =>
      let before := evalFen E deepBudget fb
      let after := evalFen E deepBudget fa
      (st.1.map (fun h =>
          if h.id == c.id then
            { h with eval_before_cp := before.cp, eval_after_cp := after.cp,
                     eval_delta_cp := after.cp - before.cp }
          else h),
       insertEval st.2 (mkEvalRow gid m after))
    | _, _ => st

/-- Embedding of `deep_refine_candidates`: fetch the game's highlights once
(joined with their moves) and run the refinement step over each. -/
def deep_refine_candidates (E : EngineModel) (deepBudget : Nat) (gid : Nat)
    (moves : List MoveRow) (hls : List HighlightRow) (evals : List EvalRow) :
    List HighlightRow × List EvalRow :=
  (hls.filter (fun h => h.game_id == gid)).foldl
    (deepRefineStep E deepBudget gid moves) (hls, evals)

/-- The evaluation rows the deep pass can add: the deep-budget evaluation of
the after-position of some candidate highlight's move. -/
def isDeepAfterRow (E : EngineModel) (deepBudget : Nat) (gid : Nat)
    (moves : List MoveRow) (hls : List HighlightRow) (r : EvalRow) : Prop :=
  ∃ c ∈ hls, ∃ m, moves.find? (fun x => x.id == c.move_id) = some m ∧
    ∃ fa, m.fen_after = some fa ∧ r = mkEvalRow gid m (evalFen E deepBudget fa)

/-- The per-highlight relation the deep pass respects: identity, position and
category columns are untouched; only the three evaluation fields may change. -/
def refinesOnlyEval (h h' : HighlightRow) : Prop :=
  h'.id = h.id ∧ h'.game_id = h.game_id ∧ h'.move_id = h.move_id ∧
    h'.category_id = h.category_id ∧ h'.ply = h.ply

/-- A row of `chessbuddy.tactics_tasks`, restricted to the columns the
pipeline touches; `answeredAt` models whether `answered_at` is set. -/
structure TaskRow where
  id : Nat
  user_id : Nat
  game_id : Nat
  move_id : Option Nat
  source_highlight_id : Option Nat
  position_ply : Nat
  fen : Position
  category_id : Option Nat
  status : String
  answeredAt : Bool
deriving DecidableEq, Repr

/-- The expression unique index `uidx_tasks_identity` on
`(user_id, game_id, position_ply, coalesce(category_id, 0))`. -/
def taskKey (t : TaskRow) : Nat × Nat × Nat × Nat :=
  (t.user_id, t.game_id, t.position_ply, t.category_id.getD 0)

/-- Whether inserting `t` hits the `uidx_tasks_identity` unique index. -/
def taskConflict (ts : List TaskRow) (t : TaskRow) : Bool :=
  ts.any (fun u => taskKey u == taskKey t)

/-- Fresh `bigserial` id for the task store: one more than the maximum
existing id. -/
def freshTaskId (ts : List TaskRow) : Nat :=
  ts.foldl (fun a t => max a t.id) 0 + 1

/-- The task row both task-creation sites build: fixed or caller-supplied
user, `position_ply` one below the highlight's ply, the move's `fen_before`,
and the id of the seeded `blunder` category. -/
def mkTaskRow (cats : List CategoryRow) (ts : List TaskRow) (uid gid : Nat)
    (mid hid : Nat) (ply : Nat) (f : Position) : TaskRow :=
  { id := freshTaskId ts
    user_id := uid
    game_id := gid
    move_id := some mid
    source_highlight_id := some hid
    position_ply := ply - 1
    fen := f
    category_id := (cats.find? (fun c => c.key == "blunder")).map (fun c => c.id)
    status := "new"
    answeredAt := false }

/-- One iteration of the loop in `create_tasks_from_blunders`: join the
blunder highlight with its move, skip it when `fen_before` is null or
`ply ≤ 1`, otherwise insert a task for user 1 at `position_ply = ply − 1`
with the move's `fen_before`, `on conflict do nothing`. -/
def blunderTaskStep (cats : List CategoryRow) (moves : List MoveRow)
    (acc : List TaskRow) (b : HighlightRow) : List TaskRow :=
  match moves.find? (fun m => m.id == b.move_id) with
  | none => acc
  | some m =>
    match m.fen_before with
    | none => acc
    | some f =>
      if b.ply ≤ 1 then acc
      else if taskConflict acc (mkTaskRow cats acc 1 b.game_id m.id b.id b.ply f) then acc
      else acc ++ [mkTaskRow cats acc 1 b.game_id m.id b.id b.ply f]

/-- Embedding of `create_tasks_from_blunders`: run the task-creation step
over every highlight of the game whose category key is `blunder`. -/
def create_tasks_from_blunders (cats : List CategoryRow) (moves : List MoveRow)
    (hls : List HighlightRow) (gid : Nat) (ts : List TaskRow) : List TaskRow :=
  (hls.filter (fun h => h.game_id == gid &&
      cats.any (fun c => c.id == h.category_id && c.key == "blunder"))).foldl
    (blunderTaskStep cats moves) ts

/-- The characterisation of every task `create_tasks_from_blunders` can add:
it stems from a blunder-categorised highlight of the game with `ply > 1`
whose move has a non-null `fen_before`, and it solves the position one ply
before that highlight. -/
def isBlunderTaskFor (cats : List CategoryRow) (moves : List MoveRow)
    (hls : List HighlightRow) (gid : Nat) (t : TaskRow) : Prop :=
  ∃ h ∈ hls, h.game_id = gid ∧
    (∃ c ∈ cats, c.id = h.category_id ∧ c.key = "blunder") ∧ 1 < h.ply ∧
    ∃ m, moves.find? (fun x => x.id == h.move_id) = some m ∧
      ∃ f, m.fen_before = some f ∧ t.user_id = 1 ∧ t.position_ply = h.ply - 1 ∧
        t.fen = f ∧ t.source_highlight_id = some h.id ∧ t.status = "new"

/-- The fallback lookup of `create_task_from_highlight`:
`select id ... where user_id=:uid and game_id=:gid and position_ply=:plym1
order by id desc limit 1`, modelled as picking the matching row with the
largest id. -/
def pickLatest (ts : List TaskRow) : Option TaskRow :=
  ts.foldl (fun acc u =>
    match acc with
    | none => some u
    | some v => if v.id ≤ u.id then some u else some v) none

/-- HTTP-level failure of the task-creation and verification routes. -/
inductive ApiFailure
  | notFound
deriving DecidableEq, Repr

/-- Embedding of the `/highlights/.../create_task` route
(`create_task_from_highlight` in `api.py`): 404 when the highlight is
missing, unsolvable (`ply ≤ 1`) or has no `fen_before`; otherwise insert the
task `on conflict do nothing returning id` and, when the insert conflicts,
return `created=false` with the id found by the fallback lookup (which cannot
come back empty after a conflict, so its default is never used). -/
def create_task_from_highlight (cats : List CategoryRow) (moves : List MoveRow)
    (hls : List HighlightRow) (ts : List TaskRow) (hid uid : Nat) :
    Except ApiFailure (List TaskRow × Nat × Bool) :=
  match hls.find? (fun h => h.id == hid) with
  | none => .error .notFound
  | some h =>
    match moves.find? (fun m => m.id == h.move_id) with
    | none => .error .notFound
    | some m =>
      match m.fen_before with
      | none => .error .notFound
      | some f =>
        if h.ply ≤ 1 then .error .notFound
        else
          let t := mkTaskRow cats ts uid h.game_id m.id h.id h.ply f
          if taskConflict ts t then
            .ok (ts, ((pickLatest (ts.filter (fun u =>
              u.user_id == uid && u.game_id == h.game_id &&
                u.position_ply == h.ply - 1))).map (fun e => e.id)).getD 0, false)
          else .ok (ts ++ [t], t.id, true)

/-- The failure modes of `verify_task_answer`.  Both are raised as
`ValueError` subclasses in the code: the function itself raises
`ValueError("task not found")` for a missing task, and
`chess.Board.push_uci` raises `InvalidMoveError` / `IllegalMoveError` —
subclasses of `ValueError` — for an unparsable or illegal move. -/
inductive VerifyError
  | taskNotFound
  | illegalMove
deriving DecidableEq, Repr

/-- Whether a verification failure is a `ValueError` subclass (the exception
class the HTTP route catches).  Both failure modes are. -/
def VerifyError.isValueError : VerifyError → Bool
  | _ => true

/-- A row of `chessbuddy.tactics_responses`, restricted to the columns
`verify_task_answer` writes. -/
structure ResponseRow where
  id : Nat
  task_id : Nat
  user_id : Nat
  proposed_move_uci : String
  response_ms : Nat
  is_correct : Bool
  score_cp_delta : Int
  engine_eval_after_cp : Int
  engine_best_move_uci : Option String
deriving DecidableEq, Repr

/-- The dictionary `verify_task_answer` returns. -/
structure VerifyOut where
  response_id : Nat
  is_correct : Bool
  score_cp_delta : Int
  engine_best_move_uci : Option String
  engine_after_cp : Int
deriving DecidableEq, Repr

/-- The database state the verifier touches. -/
structure DBState where
  tasks : List TaskRow
  responses : List ResponseRow
deriving DecidableEq, Repr

/-- Fresh `bigserial` id for the response store. -/
def freshResponseId (rs : List ResponseRow) : Nat :=
  rs.foldl (fun a r => max a r.id) 0 + 1

/-- Embedding of `verify_task_answer`.  `push` is the board capability
`Board.push_uci`: applying a UCI move string to a position, `none` when the
move is unparsable or illegal there.  The engine's best line for the task
position and the evaluation of the position after the proposed move are both
taken at the deep budget; `delta = best.cp - after.cp` uses the raw engine
scores (each from the side to move of its own position); the Response row is
inserted and the task transitioned to `answered` only after both
evaluations succeed. -/
def verify_task_answer (E : EngineModel)
    (push : Position → String → Option Position) (deepBudget : Nat) (tol : Int)
    (st : DBState) (task_id : Nat) (proposed : String) (uid rms : Nat) :
    DBState × Except VerifyError VerifyOut :=
  match st.tasks.find? (fun t => t.id == task_id) with
  | none => (st, .error .taskNotFound)
  | some t =>
    let best := evalFen E deepBudget t.fen
    match push t.fen proposed with
    | none => (st, .error .illegalMove)
    | some afterPos =>
      let after := evalFen E deepBudget afterPos
      let delta := best.cp - after.cp
      let ok := (some proposed == best.best_uci) || (delta ≤ tol)
      let resp : ResponseRow :=
        { id := freshResponseId st.responses
          task_id := task_id
          user_id := uid
          proposed_move_uci := proposed
          response_ms := rms
          is_correct := ok
          score_cp_delta := delta
          engine_eval_after_cp := after.cp
          engine_best_move_uci := best.best_uci }
      ({ tasks := st.tasks.map (fun u =>
            if u.id == task_id then { u with status := "answered", answeredAt := true }
            else u)
         responses := st.responses ++ [resp] },
       .ok { response_id := resp.id
             is_correct := ok
             score_cp_delta := delta
             engine_best_move_uci := best.best_uci
             engine_after_cp := after.cp })

/-- Embedding of the `/tasks/.../verify` route: any `ValueError` raised by
`verify_task_answer` is reported as HTTP 404 "task not found"; other
exceptions would propagate. -/
def verify_task_api (E : EngineModel)
    (push : Position → String → Option Position) (deepBudget : Nat) (tol : Int)
    (st : DBState) (task_id : Nat) (proposed : String) (uid rms : Nat) :
    DBState × Except (Nat × String) VerifyOut :=
  match verify_task_answer E push deepBudget tol st task_id proposed uid rms with
  | (st', .error e) =>
    if e.isValueError then (st', .error (404, "task not found"))
    else (st', .error (500, "internal error"))
  | (st', .ok out) => (st', .ok out)

/-- Modelled from the spec (§4.7 Verifier), for comparison with the code:
the correctness rule with `after`'s score first re-oriented (negated) to the
original mover's perspective, so that
`delta = best.score - (re-oriented after.score)`. -/
def specVerifyVerdict (E : EngineModel) (deepBudget : Nat) (tol : Int)
    (taskFen afterPos : Position) (proposed : String) : Bool × Int :=
  let best := evalFen E deepBudget taskFen
  let afterMoverView := - (evalFen E deepBudget afterPos).cp
  let delta := best.cp - afterMoverView
  ((some proposed == best.best_uci) || (delta ≤ tol), delta)

/-- The seeded category table, as far as the classifier's keys go. -/
def demoCats : List CategoryRow :=
  [{ id := 1, key := "blunder" }, { id := 2, key := "mistake" },
   { id := 3, key := "inaccuracy" }, { id := 4, key := "great" },
   { id := 5, key := "brilliant" }]

/-- A two-move demo game: White moves from position 0 to 1, Black from 1
to 2; sides to move alternate as they do on a real board. -/
def demoMoves : List MoveRow :=
  [{ id := 1, game_id := 1, ply := 1,
     fen_before := some { pid := 0, whiteToMove := true },
     fen_after := some { pid := 1, whiteToMove := false } },
   { id := 2, game_id := 1, ply := 2,
     fen_before := some { pid := 1, whiteToMove := false },
     fen_after := some { pid := 2, whiteToMove := true } }]

/-- A demo engine: every position is worth +300 for White at every budget
(both demo moves keep the evaluation unchanged), depths are distinct per
position so no fast-pass rows collide. -/
def demoEngine : EngineModel :=
  { truth := fun _ _ => 300
    best := fun _ _ => some "e2e4"
    depth := fun _ p => some (10 + p) }

/-- A demo verification engine: the task position (identity 0, White to
move) is worth +100 for White with best move a1a2 leading to identity 2
(still +100); the suboptimal b1b2 leads to identity 1, worth −200 for
White. -/
def verifyEngine : EngineModel :=
  { truth := fun _ p => if p == 0 then 100 else if p == 1 then -200 else 100
    best := fun _ _ => some "a1a2"
    depth := fun _ _ => some 20 }

/-- The board capability for the demo task position: from identity 0, b1b2
reaches identity 1 and a1a2 reaches identity 2 (Black to move in both);
everything else is illegal. -/
def verifyPush : Position → String → Option Position :=
  fun p mv =>
    if p.pid == 0 && mv == "b1b2" then some { pid := 1, whiteToMove := false }
    else if p.pid == 0 && mv == "a1a2" then some { pid := 2, whiteToMove := false }
    else none

/-- A stored task on the demo verification position. -/
def demoTask : TaskRow :=
  { id := 5
    user_id := 1
    game_id := 1
    move_id := some 2
    source_highlight_id := some 9
    position_ply := 1
    fen := { pid := 0, whiteToMove := true }
    category_id := some 1
    status := "new"
    answeredAt := false }

/-- The verifier's demo database state: one open task, no responses. -/
def demoVerifyState : DBState := { tasks := [demoTask], responses := [] }

end Chessbuddy

namespace Chessbuddy

/-- C4: `classify` is a pure function of `delta_cp` and the thresholds,
evaluated in the fixed band order blunder (`d ≤ blunder_cp`), mistake
(`d ≤ mistake_cp`), inaccuracy (`d ≤ inaccuracy_cp`), brilliant
(`d ≥ brilliant_cp`), great (`d ≥ great_cp`), otherwise none — so the most
severe negative band wins whenever thresholds overlap — and on the default
thresholds it takes the six stated values. -/
theorem classify_band_order_and_defaults :
    (∀ th : HighlightThresholds, ∀ d : Int,
        (d ≤ th.blunder_cp → classifyDelta th d = some "blunder") ∧
        (th.blunder_cp < d → d ≤ th.mistake_cp → classifyDelta th d = some "mistake") ∧
        (th.blunder_cp < d → th.mistake_cp < d → d ≤ th.inaccuracy_cp →
          classifyDelta th d = some "inaccuracy") ∧
        (th.blunder_cp < d → th.mistake_cp < d → th.inaccuracy_cp < d →
          th.brilliant_cp ≤ d → classifyDelta th d = some "brilliant") ∧
        (th.blunder_cp < d → th.mistake_cp < d → th.inaccuracy_cp < d →
          d < th.brilliant_cp → th.great_cp ≤ d → classifyDelta th d = some "great") ∧
        (th.blunder_cp < d → th.mistake_cp < d → th.inaccuracy_cp < d →
          d < th.brilliant_cp → d < th.great_cp → classifyDelta th d = none)) ∧
      classifyDelta defaultThresholds (-1300) = some "blunder" ∧
      classifyDelta defaultThresholds (-900) = some "mistake" ∧
      classifyDelta defaultThresholds (-500) = some "inaccuracy" ∧
      classifyDelta defaultThresholds 0 = none ∧
      classifyDelta defaultThresholds 700 = some "great" ∧
      classifyDelta defaultThresholds 1000 = some "brilliant" := by
  refine ⟨fun th d => ?_, by decide, by decide, by decide, by decide, by decide, by decide⟩
  refine ⟨fun hb => ?_, fun hb hm => ?_, fun hb hm hi => ?_,
    fun hb hm hi hbr => ?_, fun hb hm hi hbr hg => ?_, fun hb hm hi hbr hg => ?_⟩
  · simp [classifyDelta, hb]
  · simp [classifyDelta, not_le.mpr hb, hm]
  · simp [classifyDelta, not_le.mpr hb, not_le.mpr hm, hi]
  · simp [classifyDelta, not_le.mpr hb, not_le.mpr hm, not_le.mpr hi, hbr]
  · simp [classifyDelta, not_le.mpr hb, not_le.mpr hm, not_le.mpr hi, not_le.mpr hbr, hg]
  · simp [classifyDelta, not_le.mpr hb, not_le.mpr hm, not_le.mpr hi, not_le.mpr hbr,
      not_le.mpr hg]

/-- Concrete instantiation of the band-order part of the classification
theorem at default thresholds. -/
theorem classify_band_order_and_defaults_witness :
    classifyDelta defaultThresholds (-1300) = some "blunder" ∧
    classifyDelta defaultThresholds (-900) = some "mistake" ∧
    classifyDelta defaultThresholds 1000 = some "brilliant" :=
  ⟨(classify_band_order_and_defaults.1 defaultThresholds (-1300)).1 (by decide),
   (classify_band_order_and_defaults.1 defaultThresholds (-900)).2.1 (by decide) (by decide),
   (classify_band_order_and_defaults.1 defaultThresholds 1000).2.2.2.1 (by decide)
     (by decide) (by decide) (by decide)⟩

/-- Inserting never removes rows from the evaluation store. -/
theorem mem_insertEval {s : List EvalRow} {r x : EvalRow} (hx : x ∈ s) :
    x ∈ insertEval s r := by
  unfold insertEval
  split
  · exact hx
  · exact List.mem_append_left _ hx

/-- A fold of conflict-tolerant inserts never removes rows. -/
theorem mem_foldl_insertEval {rs : List EvalRow} {s : List EvalRow} {x : EvalRow}
    (hx : x ∈ s) : x ∈ rs.foldl insertEval s := by
  induction rs generalizing s with
  | nil => exact hx
  | cons a tl ih => exact ih (mem_insertEval hx)

/-- A row with a non-null depth conflicts with itself under the
`(move_id, engine_name, depth)` unique key. -/
theorem evalKeyConflict_self {r : EvalRow} (h : r.depth.isSome) :
    evalKeyConflict r r = true := by
  unfold evalKeyConflict
  cases hd : r.depth with
  | none => rw [hd] at h; simp at h
  | some d => simp [hd]

/-- After folding the inserts of `rs` into any store, every row of `rs` with a
non-null depth has a key-conflicting row present in the result. -/
theorem exists_conflict_foldl (rs : List EvalRow) :
    ∀ (s : List EvalRow) (r : EvalRow), r ∈ rs → r.depth.isSome →
      ∃ x ∈ rs.foldl insertEval s, evalKeyConflict r x := by
  induction rs with
  | nil => intro s r hr _; cases hr
  | cons a tl ih =>
    intro s r hr hd
    rw [List.foldl_cons]
    rcases List.mem_cons.mp hr with h | h
    · subst h
      by_cases hc : s.any (fun y => evalKeyConflict r y) = true
      · obtain ⟨x, hx, hcx⟩ := List.any_eq_true.mp hc
        exact ⟨x, mem_foldl_insertEval (mem_insertEval hx), hcx⟩
      · refine ⟨r, mem_foldl_insertEval ?_, evalKeyConflict_self hd⟩
        unfold insertEval
        rw [if_neg hc]
        exact List.mem_append_right _ (List.mem_singleton_self r)
    · exact ih (insertEval s a) r h hd

/-- If every row of `rs` already has a key-conflicting row in `t`, folding the
inserts of `rs` into `t` is a no-op. -/
theorem foldl_insertEval_no_op (rs : List EvalRow) :
    ∀ t : List EvalRow, (∀ r ∈ rs, ∃ x ∈ t, evalKeyConflict r x) →
      rs.foldl insertEval t = t := by
  induction rs with
  | nil => intro t _; rfl
  | cons a tl ih =>
    intro t h
    have ha : insertEval t a = t := by
      unfold insertEval
      rw [if_pos]
      obtain ⟨x, hx, hc⟩ := h a (List.mem_cons_self a tl)
      exact List.any_eq_true.mpr ⟨x, hx, hc⟩
    rw [List.foldl_cons, ha]
    exact ih t (fun r hr => h r (List.mem_cons_of_mem a hr))

/-- The nested per-move fold of the fast pass equals one flat fold over all
attempted rows. -/
theorem analyse_game_fast_eq_foldl (E : EngineModel) (b gid : Nat)
    (moves : List MoveRow) (store : List EvalRow) :
    analyse_game_fast E b gid moves store =
      (gameRows E b gid moves).foldl insertEval store := by
  induction moves generalizing store with
  | nil => rfl
  | cons m tl ih =>
    calc analyse_game_fast E b gid (m :: tl) store
        = analyse_game_fast E b gid tl
            ((fastRowsOfMove E b gid m).foldl insertEval store) := rfl
      _ = (gameRows E b gid tl).foldl insertEval
            ((fastRowsOfMove E b gid m).foldl insertEval store) := ih _
      _ = (fastRowsOfMove E b gid m ++ gameRows E b gid tl).foldl insertEval store :=
            (List.foldl_append _ _ _ _).symm
      _ = (gameRows E b gid (m :: tl)).foldl insertEval store := by
            simp [gameRows, List.flatMap_cons]

/-- Every row the fast pass attempts has a non-null depth when the engine
always reports one. -/
theorem gameRows_depth_isSome (E : EngineModel) (b gid : Nat) (moves : List MoveRow)
    (hE : E.reportsDepth) : ∀ r ∈ gameRows E b gid moves, r.depth.isSome := by
  intro r hr
  obtain ⟨m, _, hr⟩ := List.mem_flatMap.mp hr
  unfold fastRowsOfMove at hr
  rcases List.mem_append.mp hr with h | h <;>
    · obtain ⟨f, _, rfl⟩ := List.mem_map.mp h
      exact hE b f.pid

/-- C6: running the fast pass twice on the same game produces the same set of
Evaluation rows as running it once — every insert of the second run hits an
existing `(move_id, engine_name, depth)` key and is a no-op (given that the
engine oracle reports a depth for every evaluation). -/
theorem fast_pass_idempotent (E : EngineModel) (b gid : Nat) (moves : List MoveRow)
    (store : List EvalRow) (hE : E.reportsDepth) :
    analyse_game_fast E b gid moves (analyse_game_fast E b gid moves store) =
      analyse_game_fast E b gid moves store := by
  simp only [analyse_game_fast_eq_foldl]
  apply foldl_insertEval_no_op
  intro r hr
  exact exists_conflict_foldl _ store r hr (gameRows_depth_isSome E b gid moves hE r hr)

/-- Concrete instantiation of fast-pass idempotence: a one-move game analysed
twice from the empty store. -/
theorem fast_pass_idempotent_witness :
    analyse_game_fast
        { truth := fun _ _ => 0, best := fun _ _ => some "e2e4", depth := fun _ p => some (10 + p) }
        40 1
        [{ id := 7, game_id := 1, ply := 1,
           fen_before := some { pid := 0, whiteToMove := true },
           fen_after := some { pid := 1, whiteToMove := false } }]
        (analyse_game_fast
          { truth := fun _ _ => 0, best := fun _ _ => some "e2e4", depth := fun _ p => some (10 + p) }
          40 1
          [{ id := 7, game_id := 1, ply := 1,
             fen_before := some { pid := 0, whiteToMove := true },
             fen_after := some { pid := 1, whiteToMove := false } }]
          []) =
      analyse_game_fast
        { truth := fun _ _ => 0, best := fun _ _ => some "e2e4", depth := fun _ p => some (10 + p) }
        40 1
        [{ id := 7, game_id := 1, ply := 1,
           fen_before := some { pid := 0, whiteToMove := true },
           fen_after := some { pid := 1, whiteToMove := false } }]
        [] :=
  fast_pass_idempotent _ _ _ _ _ (fun _ _ => rfl)

/-- C3 counterexample: a fully-specified move whose two evaluations report the
same depth persists only one Evaluation row in a single fast-pass run — the
second insert collides on the `(move_id, engine_name, depth)` unique key and
is dropped, so the run does not yield one row per (move, position-side). -/
theorem fast_pass_not_two_rows_per_move :
    (analyse_game_fast
        { truth := fun _ _ => 0, best := fun _ _ => some "e2e4", depth := fun _ _ => some 12 }
        40 1
        [{ id := 7, game_id := 1, ply := 1,
           fen_before := some { pid := 0, whiteToMove := true },
           fen_after := some { pid := 1, whiteToMove := false } }]
        []).length = 1 := by decide

/-- A single fast-pass run over one fully-specified move, written out: the
before row always lands; the after row lands unless it collides with the
before row on the `(move_id, engine_name, depth)` key. -/
theorem fast_pass_single_move_eq (E : EngineModel) (b gid : Nat) (m : MoveRow)
    (f g : Position) (hf : m.fen_before = some f) (hg : m.fen_after = some g) :
    analyse_game_fast E b gid [m] [] =
      if evalKeyConflict (mkEvalRow gid m (evalFen E b g)) (mkEvalRow gid m (evalFen E b f))
      then [mkEvalRow gid m (evalFen E b f)]
      else [mkEvalRow gid m (evalFen E b f), mkEvalRow gid m (evalFen E b g)] := by
  simp only [analyse_game_fast, List.foldl_cons, List.foldl_nil, fastRowsOfMove, hf, hg,
    Option.toList_some, List.map_cons, List.map_nil, List.singleton_append]
  simp only [insertEval, List.any_nil, Bool.false_eq_true, if_false, List.nil_append,
    List.any_cons, Bool.or_false]
  split <;> simp

/-- C3 (amended): a single fast-pass run over a move with both FENs non-null
persists the before-evaluation row and, unless that row collides with the
after-evaluation row on the `(move_id, engine_name, depth)` key, the
after-evaluation row as well — two rows when the reported depths differ (or a
depth is null, which PostgreSQL treats as distinct), one row when they are
equal and non-null. -/
theorem fast_pass_rows_per_move (E : EngineModel) (b gid : Nat) (m : MoveRow)
    (f g : Position) (hf : m.fen_before = some f) (hg : m.fen_after = some g) :
    analyse_game_fast E b gid [m] [] =
      if evalKeyConflict (mkEvalRow gid m (evalFen E b g)) (mkEvalRow gid m (evalFen E b f))
      then [mkEvalRow gid m (evalFen E b f)]
      else [mkEvalRow gid m (evalFen E b f), mkEvalRow gid m (evalFen E b g)] :=
  fast_pass_single_move_eq E b gid m f g hf hg

/-- Concrete instantiation of the per-move row count: with distinct reported
depths, a fully-specified move persists exactly its two evaluation rows. -/
theorem fast_pass_rows_per_move_witness :
    (analyse_game_fast
        { truth := fun _ _ => 0, best := fun _ _ => some "e2e4", depth := fun _ p => some (10 + p) }
        40 1
        [{ id := 7, game_id := 1, ply := 1,
           fen_before := some { pid := 0, whiteToMove := true },
           fen_after := some { pid := 1, whiteToMove := false } }]
        []).length = 2 := by
  have h := fast_pass_rows_per_move
    { truth := fun _ _ => 0, best := fun _ _ => some "e2e4", depth := fun _ p => some (10 + p) }
    40 1
    { id := 7, game_id := 1, ply := 1,
      fen_before := some { pid := 0, whiteToMove := true },
      fen_after := some { pid := 1, whiteToMove := false } }
    { pid := 0, whiteToMove := true } { pid := 1, whiteToMove := false } rfl rfl
  rw [h]
  decide

/-- Re-orienting a side-to-move score to the other side negates it. -/
theorem scoreFor_not (E : EngineModel) (b : Nat) (w : Bool) (p : Position) :
    scoreFor E b (!w) p = - scoreFor E b w p := by
  cases w <;> simp [scoreFor]

/-- C2 counterexample: on a two-move demo game in which every position is
worth +300 for White, the mover-perspective delta of White's first move is 0
(no category), yet `annotate_highlights` feeds `classify` the window deltas
−600, 0, +600 — differences of scores reported from opposite sides' points of
view — and flags move 1 as an inaccuracy and move 2 as great. -/
theorem annotate_delta_opposite_sides_cex :
    (annotateDeltas 1 demoMoves (analyse_game_fast demoEngine 40 1 demoMoves [])).map
        (fun r => r.delta) = [-600, 0, 600] ∧
      scoreFor demoEngine 40 true { pid := 1, whiteToMove := false } -
        scoreFor demoEngine 40 true { pid := 0, whiteToMove := true } = 0 ∧
      classifyDelta defaultThresholds 0 = none ∧
      (annotate_highlights demoCats defaultThresholds 1 demoMoves
          (analyse_game_fast demoEngine 40 1 demoMoves []) []).map
          (fun h => (h.move_id, h.category_id)) = [(1, 3), (2, 4)] :=
  ⟨by decide, by decide, by decide, by decide⟩

/-- C2 (amended): for a fully-specified move whose two fast-pass rows both
persist, the delta `annotate_highlights` feeds `classify` is the raw
difference of the stored side-to-move scores: the after score from the
opponent's point of view minus the before score from the mover's point of
view — no re-orientation to a common side is applied. -/
theorem annotate_delta_no_reorientation (E : EngineModel) (b gid : Nat) (m : MoveRow)
    (q r : Position) (hmg : m.game_id = gid) (hf : m.fen_before = some q)
    (hg : m.fen_after = some r) (hflip : r.whiteToMove = !q.whiteToMove)
    (hnc : evalKeyConflict (mkEvalRow gid m (evalFen E b r))
        (mkEvalRow gid m (evalFen E b q)) = false) :
    (annotateDeltas gid [m] (analyse_game_fast E b gid [m] [])).map (fun x => x.delta) =
      [(- scoreFor E b q.whiteToMove r) - scoreFor E b q.whiteToMove q] := by
  rw [fast_pass_single_move_eq E b gid m q r hf hg, hnc]
  simp only [Bool.false_eq_true, if_false]
  simp [annotateDeltas, annotateJoin, lagRows, hmg, mkEvalRow, evalFen,
    ← scoreFor_not, hflip]

/-- Concrete instantiation of the un-reoriented annotation delta on the first
demo move. -/
theorem annotate_delta_no_reorientation_witness :
    (annotateDeltas 1
        [{ id := 1, game_id := 1, ply := 1,
           fen_before := some { pid := 0, whiteToMove := true },
           fen_after := some { pid := 1, whiteToMove := false } }]
        (analyse_game_fast demoEngine 40 1
          [{ id := 1, game_id := 1, ply := 1,
             fen_before := some { pid := 0, whiteToMove := true },
             fen_after := some { pid := 1, whiteToMove := false } }] [])).map
        (fun x => x.delta) =
      [(- scoreFor demoEngine 40 true { pid := 1, whiteToMove := false }) -
        scoreFor demoEngine 40 true { pid := 0, whiteToMove := true }] :=
  annotate_delta_no_reorientation demoEngine 40 1
    { id := 1, game_id := 1, ply := 1,
      fen_before := some { pid := 0, whiteToMove := true },
      fen_after := some { pid := 1, whiteToMove := false } }
    { pid := 0, whiteToMove := true } { pid := 1, whiteToMove := false }
    rfl rfl rfl rfl (by decide)

/-- Membership after a conflict-tolerant insert: the row was already there or
is the inserted one. -/
theorem mem_insertEval_cases {s : List EvalRow} {r x : EvalRow}
    (hx : x ∈ insertEval s r) : x ∈ s ∨ x = r := by
  unfold insertEval at hx
  split at hx
  · exact Or.inl hx
  · rcases List.mem_append.mp hx with h | h
    · exact Or.inl h
    · exact Or.inr (List.mem_singleton.mp h)

/-- The in-place update of a candidate's evaluation fields preserves every
identity, position and category column. -/
theorem refinesOnlyEval_update (a b : HighlightRow) (cid : Nat) (x y z : Int)
    (h : refinesOnlyEval a b) :
    refinesOnlyEval a
      (if b.id == cid then
        { b with eval_before_cp := x, eval_after_cp := y, eval_delta_cp := z }
      else b) := by
  split
  · exact h
  · exact h

/-- One deep-refinement step keeps the highlight store pointwise related to
the original store by `refinesOnlyEval`. -/
theorem deepRefineStep_forall₂ (E : EngineModel) (db gid : Nat)
    (moves : List MoveRow) (hls0 : List HighlightRow)
    (st : List HighlightRow × List EvalRow) (c : HighlightRow)
    (h : List.Forall₂ refinesOnlyEval hls0 st.1) :
    List.Forall₂ refinesOnlyEval hls0 (deepRefineStep E db gid moves st c).1 := by
  unfold deepRefineStep
  split
  · exact h
  · split
    · refine List.forall₂_map_right_iff.mpr (h.imp ?_)
      intro a b hab
      exact refinesOnlyEval_update a b c.id _ _ _ hab
    · exact h

/-- One deep-refinement step never removes evaluation rows. -/
theorem deepRefineStep_mono (E : EngineModel) (db gid : Nat)
    (moves : List MoveRow) (st : List HighlightRow × List EvalRow)
    (c : HighlightRow) {r : EvalRow} (hr : r ∈ st.2) :
    r ∈ (deepRefineStep E db gid moves st c).2 := by
  unfold deepRefineStep
  split
  · exact hr
  · split
    · exact mem_insertEval hr
    · exact hr

/-- Any evaluation row present after one deep-refinement step was already
present or is the deep after-evaluation of the step's candidate. -/
theorem deepRefineStep_new_rows (E : EngineModel) (db gid : Nat)
    (moves : List MoveRow) (st : List HighlightRow × List EvalRow)
    (c : HighlightRow) {r : EvalRow}
    (hr : r ∈ (deepRefineStep E db gid moves st c).2) :
    r ∈ st.2 ∨ ∃ m, moves.find? (fun x => x.id == c.move_id) = some m ∧
      ∃ fa, m.fen_after = some fa ∧ r = mkEvalRow gid m (evalFen E db fa) := by
  unfold deepRefineStep at hr
  split at hr
  · exact Or.inl hr
  · rename_i m hm
    split at hr
    · rename_i fb fa hfb hfa
      rcases mem_insertEval_cases hr with h | h
      · exact Or.inl h
      · exact Or.inr ⟨m, hm, fa, hfa, h⟩
    · exact Or.inl hr

/-- Folding deep-refinement steps over any candidate list drawn from `hls0`
preserves the frame invariant. -/
theorem deepRefine_fold_inv (E : EngineModel) (db gid : Nat) (moves : List MoveRow)
    (hls0 : List HighlightRow) (evals0 : List EvalRow) (cs : List HighlightRow) :
    ∀ st : List HighlightRow × List EvalRow, (∀ c ∈ cs, c ∈ hls0) →
      List.Forall₂ refinesOnlyEval hls0 st.1 →
      (∀ r ∈ evals0, r ∈ st.2) →
      (∀ r ∈ st.2, r ∈ evals0 ∨ isDeepAfterRow E db gid moves hls0 r) →
      List.Forall₂ refinesOnlyEval hls0
          (cs.foldl (deepRefineStep E db gid moves) st).1 ∧
        (∀ r ∈ evals0, r ∈ (cs.foldl (deepRefineStep E db gid moves) st).2) ∧
        (∀ r ∈ (cs.foldl (deepRefineStep E db gid moves) st).2,
          r ∈ evals0 ∨ isDeepAfterRow E db gid moves hls0 r) := by
  induction cs with
  | nil => intro st _ h1 h2 h3; exact ⟨h1, h2, h3⟩
  | cons c tl ih =>
    intro st hcs h1 h2 h3
    rw [List.foldl_cons]
    refine ih (deepRefineStep E db gid moves st c)
      (fun x hx => hcs x (List.mem_cons_of_mem c hx))
      (deepRefineStep_forall₂ E db gid moves hls0 st c h1)
      (fun r hr => deepRefineStep_mono E db gid moves st c (h2 r hr))
      (fun r hr => ?_)
    rcases deepRefineStep_new_rows E db gid moves st c hr with h | ⟨m, hm, fa, hfa, hr'⟩
    · exact h3 r h
    · exact Or.inr ⟨c, hcs c (List.mem_cons_self c tl), m, hm, fa, hfa, hr'⟩

/-- C8: the deep refinement pass updates only the `eval_before_cp`,
`eval_after_cp` and `eval_delta_cp` fields of each existing highlight — its
id, game, move, ply and in particular its `category_id` are unchanged — and
it never overwrites previously persisted evaluation rows: every prior row is
still present verbatim, and any added row is a deep-budget after-position
evaluation of some candidate highlight's move. -/
theorem deep_refine_frame (E : EngineModel) (db gid : Nat) (moves : List MoveRow)
    (hls : List HighlightRow) (evals : List EvalRow) :
    List.Forall₂ refinesOnlyEval hls
        (deep_refine_candidates E db gid moves hls evals).1 ∧
      (∀ r ∈ evals, r ∈ (deep_refine_candidates E db gid moves hls evals).2) ∧
      (∀ r ∈ (deep_refine_candidates E db gid moves hls evals).2,
        r ∈ evals ∨ isDeepAfterRow E db gid moves hls r) := by
  unfold deep_refine_candidates
  refine deepRefine_fold_inv E db gid moves hls evals _ (hls, evals)
    (fun c hc => List.mem_of_mem_filter hc) ?_ (fun r hr => hr) (fun r hr => Or.inl hr)
  exact List.forall₂_same.mpr (fun h _ => ⟨rfl, rfl, rfl, rfl, rfl⟩)

/-- Concrete instantiation of the never-overwritten half of the deep-refine
frame property: the prior fast-pass row is still present verbatim after deep
refinement of a blunder highlight on the first demo move. -/
theorem deep_refine_frame_witness :
    { game_id := 1, move_id := 1, ply := 1, eval_side := true, score_cp := 300,
      best_move_uci := some "e2e4", depth := some 10,
      engine_name := "stockfish" : EvalRow } ∈
      (deep_refine_candidates demoEngine 400 1 demoMoves
        [{ id := 1, game_id := 1, move_id := 1, category_id := 1, ply := 1,
           eval_before_cp := 300, eval_after_cp := -300, eval_delta_cp := -600 }]
        [{ game_id := 1, move_id := 1, ply := 1, eval_side := true, score_cp := 300,
           best_move_uci := some "e2e4", depth := some 10,
           engine_name := "stockfish" }]).2 :=
  (deep_refine_frame demoEngine 400 1 demoMoves
    [{ id := 1, game_id := 1, move_id := 1, category_id := 1, ply := 1,
       eval_before_cp := 300, eval_after_cp := -300, eval_delta_cp := -600 }]
    [{ game_id := 1, move_id := 1, ply := 1, eval_side := true, score_cp := 300,
       best_move_uci := some "e2e4", depth := some 10,
       engine_name := "stockfish" }]).2.1 _ (List.mem_singleton_self _)

/-- Any task present after one blunder-task step was already present or is
the freshly built task of an eligible candidate: joined move found,
`fen_before` non-null, `ply > 1`. -/
theorem blunderTaskStep_cases (cats : List CategoryRow) (moves : List MoveRow)
    (acc : List TaskRow) (b : HighlightRow) {x : TaskRow}
    (hx : x ∈ blunderTaskStep cats moves acc b) :
    x ∈ acc ∨ ∃ m, moves.find? (fun z => z.id == b.move_id) = some m ∧
      ∃ f, m.fen_before = some f ∧ 1 < b.ply ∧
        x = mkTaskRow cats acc 1 b.game_id m.id b.id b.ply f := by
  unfold blunderTaskStep at hx
  split at hx
  · exact Or.inl hx
  · rename_i m hm
    split at hx
    · exact Or.inl hx
    · rename_i f hf
      split at hx
      · exact Or.inl hx
      · rename_i hply
        split at hx
        · exact Or.inl hx
        · rcases List.mem_append.mp hx with h | h
          · exact Or.inl h
          · exact Or.inr ⟨m, hm, f, hf, Nat.lt_of_not_le hply, List.mem_singleton.mp h⟩

/-- Folding blunder-task steps over candidates drawn from the game's blunder
highlights only ever adds tasks characterised by `isBlunderTaskFor`. -/
theorem blunderTask_fold_inv (cats : List CategoryRow) (moves : List MoveRow)
    (hls : List HighlightRow) (gid : Nat) (ts0 : List TaskRow) :
    ∀ (bs : List HighlightRow) (acc : List TaskRow),
      (∀ b ∈ bs, b ∈ hls ∧ b.game_id = gid ∧
        ∃ c ∈ cats, c.id = b.category_id ∧ c.key = "blunder") →
      (∀ x ∈ acc, x ∈ ts0 ∨ isBlunderTaskFor cats moves hls gid x) →
      ∀ x ∈ bs.foldl (blunderTaskStep cats moves) acc,
        x ∈ ts0 ∨ isBlunderTaskFor cats moves hls gid x := by
  intro bs
  induction bs with
  | nil => intro acc _ hacc x hx; exact hacc x hx
  | cons b tl ih =>
    intro acc hbs hacc x hx
    rw [List.foldl_cons] at hx
    refine ih _ (fun y hy => hbs y (List.mem_cons_of_mem b hy)) (fun y hy => ?_) x hx
    rcases blunderTaskStep_cases cats moves acc b hy with h | ⟨m, hm, f, hf, hply, rfl⟩
    · exact hacc y h
    · obtain ⟨hmem, hgid, hcat⟩ := hbs b (List.mem_cons_self b tl)
      exact Or.inr ⟨b, hmem, hgid, hcat, hply, m, hm, f, hf, rfl, rfl, rfl, rfl, rfl⟩

/-- Unpacking membership in the blunder-candidate filter of
`create_tasks_from_blunders`. -/
theorem mem_blunder_filter (cats : List CategoryRow) (hls : List HighlightRow)
    (gid : Nat) {b : HighlightRow}
    (hb : b ∈ hls.filter (fun h => h.game_id == gid &&
      cats.any (fun c => c.id == h.category_id && c.key == "blunder"))) :
    b ∈ hls ∧ b.game_id = gid ∧
      ∃ c ∈ cats, c.id = b.category_id ∧ c.key = "blunder" := by
  obtain ⟨hb1, hb2⟩ := List.mem_filter.mp hb
  simp only [Bool.and_eq_true, beq_iff_eq, List.any_eq_true] at hb2
  obtain ⟨hgid, c, hc, hcid, hckey⟩ := hb2
  exact ⟨hb1, hgid, c, hc, hcid, hckey⟩

/-- Every blunder-categorised highlight of the game passes the candidate
filter of `create_tasks_from_blunders`. -/
theorem mem_blunder_filter_of (cats : List CategoryRow) (hls : List HighlightRow)
    (gid : Nat) {h : HighlightRow} (hmem : h ∈ hls) (hgid : h.game_id = gid)
    (hcat : ∃ c ∈ cats, c.id = h.category_id ∧ c.key = "blunder") :
    h ∈ hls.filter (fun x => x.game_id == gid &&
      cats.any (fun c => c.id == x.category_id && c.key == "blunder")) := by
  refine List.mem_filter.mpr ⟨hmem, ?_⟩
  simp only [Bool.and_eq_true, beq_iff_eq, List.any_eq_true]
  obtain ⟨c, hc, hcid, hckey⟩ := hcat
  exact ⟨hgid, c, hc, hcid, hckey⟩

/-- One blunder-task step never removes tasks. -/
theorem blunderTaskStep_mono (cats : List CategoryRow) (moves : List MoveRow)
    (acc : List TaskRow) (b : HighlightRow) {x : TaskRow} (hx : x ∈ acc) :
    x ∈ blunderTaskStep cats moves acc b := by
  unfold blunderTaskStep
  split
  · exact hx
  · split
    · exact hx
    · split
      · exact hx
      · split
        · exact hx
        · exact List.mem_append_left _ hx

/-- A fold of blunder-task steps never removes tasks. -/
theorem mem_foldl_blunderTaskStep (cats : List CategoryRow) (moves : List MoveRow)
    (cs : List HighlightRow) :
    ∀ (acc : List TaskRow) {x : TaskRow}, x ∈ acc →
      x ∈ cs.foldl (blunderTaskStep cats moves) acc := by
  induction cs with
  | nil => intro acc x hx; exact hx
  | cons c tl ih =>
    intro acc x hx
    exact ih _ (blunderTaskStep_mono cats moves acc c hx)

/-- Processing an eligible blunder candidate leaves the store holding a task
of the claimed shape for it: either the step inserts it, or the insert
conflicts on `uidx_tasks_identity` with a task that — given that the store
holds only foreign tasks and blunder-generated ones, and that the game's
blunder highlights have pairwise distinct plies — was generated from the
same highlight. -/
theorem blunderTaskStep_creates (cats : List CategoryRow) (moves : List MoveRow)
    (hls : List HighlightRow) (gid : Nat) (acc : List TaskRow) (b : HighlightRow)
    (hbmem : b ∈ hls) (hgid : b.game_id = gid)
    (hcat : ∃ c ∈ cats, c.id = b.category_id ∧ c.key = "blunder")
    (m : MoveRow) (hm : moves.find? (fun x => x.id == b.move_id) = some m)
    (f : Position) (hf : m.fen_before = some f) (hply : 1 < b.ply)
    (hacc : ∀ x ∈ acc, ¬(x.user_id = 1 ∧ x.game_id = gid) ∨
      isBlunderTaskFor cats moves hls gid x)
    (hdist : ∀ h₁ ∈ hls, ∀ h₂ ∈ hls, h₁.game_id = gid → h₂.game_id = gid →
      (∃ c ∈ cats, c.id = h₁.category_id ∧ c.key = "blunder") →
      (∃ c ∈ cats, c.id = h₂.category_id ∧ c.key = "blunder") →
      h₁.ply = h₂.ply → h₁ = h₂) :
    ∃ t ∈ blunderTaskStep cats moves acc b,
      t.user_id = 1 ∧ t.game_id = gid ∧ t.position_ply = b.ply - 1 ∧ t.fen = f ∧
        t.source_highlight_id = some b.id ∧ t.status = "new" := by
  have hnle : ¬ b.ply ≤ 1 := not_le.mpr hply
  simp only [blunderTaskStep, hm, hf]
  rw [if_neg hnle]
  by_cases hc : taskConflict acc (mkTaskRow cats acc 1 b.game_id m.id b.id b.ply f) = true
  · rw [if_pos hc]
    obtain ⟨u, hu, hkeyb⟩ := List.any_eq_true.mp hc
    have hkey : taskKey u = taskKey (mkTaskRow cats acc 1 b.game_id m.id b.id b.ply f) :=
      beq_iff_eq.mp hkeyb
    simp only [taskKey, mkTaskRow, Prod.mk.injEq] at hkey
    obtain ⟨hk1, hk2, hk3, hk4⟩ := hkey
    have hugid : u.game_id = gid := hk2.trans hgid
    rcases hacc u hu with hno | hgood
    · exact absurd ⟨hk1, hugid⟩ hno
    · obtain ⟨h', hh'mem, hh'gid, hh'cat, hh'ply, m', hm', f', hf', hu1, hupos,
        hufen, husrc, hust⟩ := hgood
      have hplyeq : h'.ply = b.ply := by
        have h1 : h'.ply - 1 = b.ply - 1 := by rw [← hupos]; exact hk3
        omega
      have hEq : h' = b := hdist h' hh'mem b hbmem hh'gid hgid hh'cat hcat hplyeq
      subst hEq
      have hmm : m' = m := by
        rw [hm] at hm'
        exact (Option.some.inj hm').symm
      have hff : f' = f := by
        rw [hmm, hf] at hf'
        exact (Option.some.inj hf').symm
      exact ⟨u, hu, hu1, hugid, hk3, by rw [hufen, hff], husrc, hust⟩
  · rw [if_neg hc]
    exact ⟨mkTaskRow cats acc 1 b.game_id m.id b.id b.ply f,
      List.mem_append_right _ (List.mem_singleton_self _),
      rfl, hgid, rfl, rfl, rfl, rfl⟩

/-- C5: task generation is sound and complete for blunder highlights.
Sound: every task `create_tasks_from_blunders` adds comes from a
blunder-categorised highlight of the game with `ply > 1` whose move has a
non-null `fen_before`, and has `position_ply = highlight.ply − 1` and
`fen = fen_before` of the flagged move — so guarded highlights (`ply ≤ 1` or
null `fen_before`) never yield a task.  Complete: every such eligible
highlight yields a task of exactly that shape in the resulting store, given
a store with no prior tasks for (user 1, this game) and the schema
invariants (`unique (game_id, ply)` on moves and
`unique (move_id, category_id)` on highlights make a game's blunder
highlights pairwise distinct in ply). -/
theorem tasks_from_blunders_positions (cats : List CategoryRow) (moves : List MoveRow)
    (hls : List HighlightRow) (gid : Nat) (ts : List TaskRow)
    (hts : ∀ u ∈ ts, ¬(u.user_id = 1 ∧ u.game_id = gid))
    (hdist : ∀ h₁ ∈ hls, ∀ h₂ ∈ hls, h₁.game_id = gid → h₂.game_id = gid →
      (∃ c ∈ cats, c.id = h₁.category_id ∧ c.key = "blunder") →
      (∃ c ∈ cats, c.id = h₂.category_id ∧ c.key = "blunder") →
      h₁.ply = h₂.ply → h₁ = h₂) :
    (∀ x ∈ create_tasks_from_blunders cats moves hls gid ts,
        x ∈ ts ∨ isBlunderTaskFor cats moves hls gid x) ∧
      ∀ h ∈ hls, h.game_id = gid →
        (∃ c ∈ cats, c.id = h.category_id ∧ c.key = "blunder") →
        ∀ m, moves.find? (fun x => x.id == h.move_id) = some m →
          ∀ f, m.fen_before = some f → 1 < h.ply →
            ∃ t ∈ create_tasks_from_blunders cats moves hls gid ts,
              t.user_id = 1 ∧ t.game_id = gid ∧ t.position_ply = h.ply - 1 ∧
                t.fen = f ∧ t.source_highlight_id = some h.id ∧ t.status = "new" := by
  constructor
  · unfold create_tasks_from_blunders
    exact blunderTask_fold_inv cats moves hls gid ts _ ts
      (fun b hb => mem_blunder_filter cats hls gid hb)
      (fun x hx => Or.inl hx)
  · intro h hmem hgid hcat m hm f hf hply
    have hfil : h ∈ hls.filter (fun x => x.game_id == gid &&
        cats.any (fun c => c.id == x.category_id && c.key == "blunder")) :=
      mem_blunder_filter_of cats hls gid hmem hgid hcat
    obtain ⟨l₁, l₂, hsplit⟩ := List.append_of_mem hfil
    unfold create_tasks_from_blunders
    rw [hsplit, List.foldl_append, List.foldl_cons]
    have hJ : ∀ x ∈ l₁.foldl (blunderTaskStep cats moves) ts,
        ¬(x.user_id = 1 ∧ x.game_id = gid) ∨
          isBlunderTaskFor cats moves hls gid x := by
      intro x hx
      have hIncl : ∀ b ∈ l₁, b ∈ hls ∧ b.game_id = gid ∧
          ∃ c ∈ cats, c.id = b.category_id ∧ c.key = "blunder" := by
        intro b hb
        exact mem_blunder_filter cats hls gid
          (by rw [hsplit]; exact List.mem_append_left _ hb)
      rcases blunderTask_fold_inv cats moves hls gid ts l₁ ts hIncl
        (fun y hy => Or.inl hy) x hx with hold | hnew
      · exact Or.inl (hts x hold)
      · exact Or.inr hnew
    obtain ⟨t, ht, hshape⟩ := blunderTaskStep_creates cats moves hls gid _ h
      hmem hgid hcat m hm f hf hply hJ hdist
    exact ⟨t, mem_foldl_blunderTaskStep cats moves l₂ _ ht, hshape⟩

/-- Concrete instantiation of task generation: a blunder highlight at ply 2
of the demo game creates, from the empty store, a task for user 1 one ply
earlier on the move's `fen_before`. -/
theorem tasks_from_blunders_positions_witness :
    ∃ t ∈ create_tasks_from_blunders demoCats demoMoves
        [{ id := 9, game_id := 1, move_id := 2, category_id := 1, ply := 2,
           eval_before_cp := 0, eval_after_cp := -1300, eval_delta_cp := -1300 }] 1 [],
      t.user_id = 1 ∧ t.game_id = 1 ∧ t.position_ply = 1 ∧
        t.fen = { pid := 1, whiteToMove := false } ∧
        t.source_highlight_id = some 9 ∧ t.status = "new" :=
  (tasks_from_blunders_positions demoCats demoMoves
      [{ id := 9, game_id := 1, move_id := 2, category_id := 1, ply := 2,
         eval_before_cp := 0, eval_after_cp := -1300, eval_delta_cp := -1300 }] 1 []
      (fun u hu => absurd hu (List.not_mem_nil u))
      (fun h₁ hh₁ h₂ hh₂ _ _ _ _ _ => by
        rw [List.mem_singleton.mp hh₁, List.mem_singleton.mp hh₂])).2
    { id := 9, game_id := 1, move_id := 2, category_id := 1, ply := 2,
      eval_before_cp := 0, eval_after_cp := -1300, eval_delta_cp := -1300 }
    (List.mem_singleton_self _) rfl
    ⟨{ id := 1, key := "blunder" }, by decide, rfl, rfl⟩
    { id := 2, game_id := 1, ply := 2,
      fen_before := some { pid := 1, whiteToMove := false },
      fen_after := some { pid := 2, whiteToMove := true } }
    (by decide)
    { pid := 1, whiteToMove := false } rfl (by decide)

/-- The id-maximum fold never drops below its seed. -/
theorem taskId_foldl_max_init_le (ts : List TaskRow) :
    ∀ a : Nat, a ≤ ts.foldl (fun x t => max x t.id) a := by
  induction ts with
  | nil => intro a; exact le_rfl
  | cons t tl ih => intro a; exact le_trans (le_max_left a t.id) (ih (max a t.id))

/-- Every stored task's id is bounded by the id-maximum fold. -/
theorem taskId_le_foldl_max (ts : List TaskRow) :
    ∀ a : Nat, ∀ u ∈ ts, u.id ≤ ts.foldl (fun x t => max x t.id) a := by
  induction ts with
  | nil => intro a u hu; cases hu
  | cons t tl ih =>
    intro a u hu
    rcases List.mem_cons.mp hu with h | h
    · subst h
      exact le_trans (le_max_right a u.id) (taskId_foldl_max_init_le tl _)
    · exact ih _ u h

/-- A fresh `bigserial` id is strictly larger than every stored id. -/
theorem lt_freshTaskId {ts : List TaskRow} {u : TaskRow} (hu : u ∈ ts) :
    u.id < freshTaskId ts :=
  Nat.lt_succ_of_le (taskId_le_foldl_max ts 0 u hu)

/-- The latest-id fold either keeps its seed or returns a list member. -/
theorem pickLatest_fold_cases (l : List TaskRow) :
    ∀ acc : Option TaskRow,
      l.foldl (fun acc u =>
          match acc with
          | none => some u
          | some v => if v.id ≤ u.id then some u else some v) acc = acc ∨
        ∃ v ∈ l, l.foldl (fun acc u =>
          match acc with
          | none => some u
          | some v => if v.id ≤ u.id then some u else some v) acc = some v := by
  induction l with
  | nil => intro acc; exact Or.inl rfl
  | cons u tl ih =>
    intro acc
    rw [List.foldl_cons]
    rcases ih (match acc with
      | none => some u
      | some v => if v.id ≤ u.id then some u else some v) with h | ⟨v, hv, h⟩
    · rw [h]
      cases acc with
      | none => exact Or.inr ⟨u, List.mem_cons_self u tl, rfl⟩
      | some w =>
        by_cases hw : w.id ≤ u.id
        · exact Or.inr ⟨u, List.mem_cons_self u tl, by simp [hw]⟩
        · exact Or.inl (by simp [hw])
    · exact Or.inr ⟨v, List.mem_cons_of_mem u hv, h⟩

/-- Appending a task with a strictly larger id than every list member makes
it the latest. -/
theorem pickLatest_append_last (l : List TaskRow) (t : TaskRow)
    (hmax : ∀ u ∈ l, u.id < t.id) : pickLatest (l ++ [t]) = some t := by
  unfold pickLatest
  rw [List.foldl_append, List.foldl_cons, List.foldl_nil]
  rcases pickLatest_fold_cases l none with h | ⟨v, hv, h⟩
  · rw [h]
  · rw [h]
    simp [le_of_lt (hmax v hv)]

/-- C7: with the `uidx_tasks_identity` unique index, at most one task exists
per `(user, game, position_ply, category)` tuple, and calling
`create_task_from_highlight` a second time with identical arguments after a
successful creation returns `created = false` with the task id of the
already-existing task, leaving the store unchanged. -/
theorem create_task_identity (cats : List CategoryRow) (moves : List MoveRow)
    (hls : List HighlightRow) (ts : List TaskRow) (hid uid : Nat)
    (h : HighlightRow) (m : MoveRow) (f : Position)
    (hh : hls.find? (fun x => x.id == hid) = some h)
    (hm : moves.find? (fun x => x.id == h.move_id) = some m)
    (hf : m.fen_before = some f) (hply : ¬ h.ply ≤ 1)
    (hnc : taskConflict ts (mkTaskRow cats ts uid h.game_id m.id h.id h.ply f) = false)
    (huniq : List.Pairwise (fun a b => taskKey a ≠ taskKey b) ts) :
    create_task_from_highlight cats moves hls ts hid uid =
        .ok (ts ++ [mkTaskRow cats ts uid h.game_id m.id h.id h.ply f],
          (mkTaskRow cats ts uid h.game_id m.id h.id h.ply f).id, true) ∧
      create_task_from_highlight cats moves hls
          (ts ++ [mkTaskRow cats ts uid h.game_id m.id h.id h.ply f]) hid uid =
        .ok (ts ++ [mkTaskRow cats ts uid h.game_id m.id h.id h.ply f],
          (mkTaskRow cats ts uid h.game_id m.id h.id h.ply f).id, false) ∧
      List.Pairwise (fun a b => taskKey a ≠ taskKey b)
        (ts ++ [mkTaskRow cats ts uid h.game_id m.id h.id h.ply f]) ∧
      ∀ a ∈ ts ++ [mkTaskRow cats ts uid h.game_id m.id h.id h.ply f],
        ∀ b ∈ ts ++ [mkTaskRow cats ts uid h.game_id m.id h.id h.ply f],
          a.user_id = b.user_id → a.game_id = b.game_id →
            a.position_ply = b.position_ply → a.category_id = b.category_id → a = b := by
  have hkey : ∀ ts' : List TaskRow,
      taskKey (mkTaskRow cats ts' uid h.game_id m.id h.id h.ply f) =
        taskKey (mkTaskRow cats ts uid h.game_id m.id h.id h.ply f) := fun _ => rfl
  have hall : ∀ x ∈ ts,
      ¬ taskKey x = taskKey (mkTaskRow cats ts uid h.game_id m.id h.id h.ply f) := by
    simpa [taskConflict] using hnc
  have hpw : List.Pairwise (fun a b => taskKey a ≠ taskKey b)
      (ts ++ [mkTaskRow cats ts uid h.game_id m.id h.id h.ply f]) := by
    rw [List.pairwise_append]
    refine ⟨huniq, List.pairwise_singleton _ _, fun a ha b hb => ?_⟩
    rw [List.mem_singleton.mp hb]
    exact hall a ha
  refine ⟨?_, ?_, hpw, ?_⟩
  · simp only [create_task_from_highlight, hh, hm, hf]
    rw [if_neg hply]
    simp [hnc]
  · simp only [create_task_from_highlight, hh, hm, hf]
    rw [if_neg hply]
    have hconf : taskConflict
        (ts ++ [mkTaskRow cats ts uid h.game_id m.id h.id h.ply f])
        (mkTaskRow cats (ts ++ [mkTaskRow cats ts uid h.game_id m.id h.id h.ply f])
          uid h.game_id m.id h.id h.ply f) = true := by
      unfold taskConflict
      refine List.any_eq_true.mpr
        ⟨mkTaskRow cats ts uid h.game_id m.id h.id h.ply f,
         List.mem_append_right _ (List.mem_singleton_self _), ?_⟩
      rw [hkey]
      exact beq_self_eq_true _
    rw [hconf]
    simp only [if_true]
    have hfil : (ts ++ [mkTaskRow cats ts uid h.game_id m.id h.id h.ply f]).filter
        (fun u => u.user_id == uid && u.game_id == h.game_id &&
          u.position_ply == h.ply - 1) =
        ts.filter (fun u => u.user_id == uid && u.game_id == h.game_id &&
          u.position_ply == h.ply - 1) ++
          [mkTaskRow cats ts uid h.game_id m.id h.id h.ply f] := by
      rw [List.filter_append]
      simp [mkTaskRow]
    rw [hfil, pickLatest_append_last _ _ (fun u hu =>
      lt_freshTaskId (List.mem_of_mem_filter hu))]
    simp
  · intro a ha b hb h1 h2 h3 h4
    by_cases hab : a = b
    · exact hab
    · exact absurd (by simp [taskKey, h1, h2, h3, h4])
        (List.Pairwise.forall (fun x y hxy => hxy.symm) hpw ha hb hab)

/-- Concrete instantiation of task identity: creating the task for a
ply-2 blunder highlight twice from the empty store. -/
theorem create_task_identity_witness :
    create_task_from_highlight demoCats demoMoves
        [{ id := 9, game_id := 1, move_id := 2, category_id := 1, ply := 2,
           eval_before_cp := 0, eval_after_cp := -1300, eval_delta_cp := -1300 }]
        [] 9 1 =
      .ok ([mkTaskRow demoCats [] 1 1 2 9 2 { pid := 1, whiteToMove := false }],
        (mkTaskRow demoCats [] 1 1 2 9 2 { pid := 1, whiteToMove := false }).id,
        true) ∧
    create_task_from_highlight demoCats demoMoves
        [{ id := 9, game_id := 1, move_id := 2, category_id := 1, ply := 2,
           eval_before_cp := 0, eval_after_cp := -1300, eval_delta_cp := -1300 }]
        [mkTaskRow demoCats [] 1 1 2 9 2 { pid := 1, whiteToMove := false }] 9 1 =
      .ok ([mkTaskRow demoCats [] 1 1 2 9 2 { pid := 1, whiteToMove := false }],
        (mkTaskRow demoCats [] 1 1 2 9 2 { pid := 1, whiteToMove := false }).id,
        false) := by
  have h := create_task_identity demoCats demoMoves
    [{ id := 9, game_id := 1, move_id := 2, category_id := 1, ply := 2,
       eval_before_cp := 0, eval_after_cp := -1300, eval_delta_cp := -1300 }]
    [] 9 1
    { id := 9, game_id := 1, move_id := 2, category_id := 1, ply := 2,
      eval_before_cp := 0, eval_after_cp := -1300, eval_delta_cp := -1300 }
    { id := 2, game_id := 1, ply := 2,
      fen_before := some { pid := 1, whiteToMove := false },
      fen_after := some { pid := 2, whiteToMove := true } }
    { pid := 1, whiteToMove := false }
    rfl rfl rfl (by decide) rfl List.Pairwise.nil
  exact ⟨h.1, h.2.1⟩

/-- C1 counterexample: on the demo task, the suboptimal move b1b2 (best is
a1a2) is marked correct with `score_cp_delta = -100`, while the spec's rule
— with `after` re-oriented to the original mover — yields incorrect with
delta = 300: the code does not negate `after`'s score, and its delta is
negative for this suboptimal move. -/
theorem verify_delta_not_reoriented_cex :
    (verify_task_answer verifyEngine verifyPush 400 10 demoVerifyState 5 "b1b2" 1 0).2 =
        .ok { response_id := 1, is_correct := true, score_cp_delta := -100,
              engine_best_move_uci := some "a1a2", engine_after_cp := 200 } ∧
      specVerifyVerdict verifyEngine 400 10 { pid := 0, whiteToMove := true }
        { pid := 1, whiteToMove := false } "b1b2" = (false, 300) ∧
      (some "b1b2" : Option String) ≠
        (evalFen verifyEngine 400 { pid := 0, whiteToMove := true }).best_uci :=
  ⟨rfl, by decide, by decide⟩

/-- C1 (amended): `verify_task_answer` returns
`is_correct = (proposed == best.best_move) OR (delta ≤ near_best_tolerance_cp)`
with `delta = best.cp - after.cp`, where `after.cp` is the engine score of
the post-move position from the perspective of the side to move there (the
opponent).  No re-orientation is applied, so `delta` equals
`best.cp + (after score from the original mover's perspective)` and can be
negative for suboptimal moves. -/
theorem verify_answer_formula (E : EngineModel)
    (push : Position → String → Option Position) (db : Nat) (tol : Int)
    (st : DBState) (tid : Nat) (proposed : String) (uid rms : Nat)
    (t : TaskRow) (afterPos : Position)
    (hfind : st.tasks.find? (fun u => u.id == tid) = some t)
    (hpush : push t.fen proposed = some afterPos)
    (hflip : afterPos.whiteToMove = !t.fen.whiteToMove) :
    (verify_task_answer E push db tol st tid proposed uid rms).2 =
      .ok { response_id := freshResponseId st.responses
            is_correct := (some proposed == (evalFen E db t.fen).best_uci) ||
              ((evalFen E db t.fen).cp +
                scoreFor E db t.fen.whiteToMove afterPos ≤ tol)
            score_cp_delta := (evalFen E db t.fen).cp +
              scoreFor E db t.fen.whiteToMove afterPos
            engine_best_move_uci := (evalFen E db t.fen).best_uci
            engine_after_cp := - scoreFor E db t.fen.whiteToMove afterPos } := by
  have hafter : (evalFen E db afterPos).cp =
      - scoreFor E db t.fen.whiteToMove afterPos := by
    show scoreFor E db afterPos.whiteToMove afterPos = _
    rw [hflip, scoreFor_not]
  simp only [verify_task_answer, hfind, hpush, hafter, sub_neg_eq_add]

/-- Concrete instantiation of the verification formula on the demo task and
the suboptimal move b1b2. -/
theorem verify_answer_formula_witness :
    (verify_task_answer verifyEngine verifyPush 400 10 demoVerifyState 5 "b1b2" 1 0).2 =
      .ok { response_id := freshResponseId demoVerifyState.responses
            is_correct := (some "b1b2" == (evalFen verifyEngine 400 demoTask.fen).best_uci) ||
              ((evalFen verifyEngine 400 demoTask.fen).cp +
                scoreFor verifyEngine 400 demoTask.fen.whiteToMove
                  { pid := 1, whiteToMove := false } ≤ 10)
            score_cp_delta := (evalFen verifyEngine 400 demoTask.fen).cp +
              scoreFor verifyEngine 400 demoTask.fen.whiteToMove
                { pid := 1, whiteToMove := false }
            engine_best_move_uci := (evalFen verifyEngine 400 demoTask.fen).best_uci
            engine_after_cp := - scoreFor verifyEngine 400 demoTask.fen.whiteToMove
              { pid := 1, whiteToMove := false } } :=
  verify_answer_formula verifyEngine verifyPush 400 10 demoVerifyState 5 "b1b2" 1 0
    demoTask { pid := 1, whiteToMove := false } rfl rfl rfl

/-- C9: verifying a nonexistent task id fails with the task-not-found
`ValueError` before any write — the returned state is the input state, so no
Response row is inserted and no Task row is modified — and the HTTP route
reports it as 404 "task not found". -/
theorem verify_missing_task_no_mutation (E : EngineModel)
    (push : Position → String → Option Position) (db : Nat) (tol : Int)
    (st : DBState) (tid : Nat) (proposed : String) (uid rms : Nat)
    (h : st.tasks.find? (fun t => t.id == tid) = none) :
    verify_task_answer E push db tol st tid proposed uid rms =
        (st, .error .taskNotFound) ∧
      verify_task_api E push db tol st tid proposed uid rms =
        (st, .error (404, "task not found")) := by
  have h1 : verify_task_answer E push db tol st tid proposed uid rms =
      (st, .error .taskNotFound) := by
    simp only [verify_task_answer, h]
  exact ⟨h1, by simp only [verify_task_api, h1]; rfl⟩

/-- Concrete instantiation of the missing-task failure on an empty task
store. -/
theorem verify_missing_task_no_mutation_witness :
    verify_task_answer verifyEngine verifyPush 400 10
        { tasks := [], responses := [] } 5 "b1b2" 1 0 =
        ({ tasks := [], responses := [] }, .error .taskNotFound) ∧
      verify_task_api verifyEngine verifyPush 400 10
        { tasks := [], responses := [] } 5 "b1b2" 1 0 =
        ({ tasks := [], responses := [] }, .error (404, "task not found")) :=
  verify_missing_task_no_mutation verifyEngine verifyPush 400 10
    { tasks := [], responses := [] } 5 "b1b2" 1 0 rfl

/-- C10: a proposed move that is not legal UCI in the task's stored position
makes `verify_task_answer` fail before any write — the returned state is the
input state, so no Response row is recorded and the task's status and
`answered_at` are unchanged — and since the raised error is a `ValueError`
subclass, the HTTP route reports the same 404 "task not found" failure as a
missing task id. -/
theorem verify_illegal_move_no_write (E : EngineModel)
    (push : Position → String → Option Position) (db : Nat) (tol : Int)
    (st : DBState) (tid : Nat) (proposed : String) (uid rms : Nat) (t : TaskRow)
    (hfind : st.tasks.find? (fun u => u.id == tid) = some t)
    (hpush : push t.fen proposed = none) :
    verify_task_answer E push db tol st tid proposed uid rms =
        (st, .error .illegalMove) ∧
      VerifyError.illegalMove.isValueError = true ∧
      verify_task_api E push db tol st tid proposed uid rms =
        (st, .error (404, "task not found")) := by
  have h1 : verify_task_answer E push db tol st tid proposed uid rms =
      (st, .error .illegalMove) := by
    simp only [verify_task_answer, hfind, hpush]
  exact ⟨h1, rfl, by simp only [verify_task_api, h1]; rfl⟩

/-- Concrete instantiation of the illegal-move failure: the move string
zzzz is not legal in the demo task's position. -/
theorem verify_illegal_move_no_write_witness :
    verify_task_answer verifyEngine verifyPush 400 10 demoVerifyState 5 "zzzz" 1 0 =
        (demoVerifyState, .error .illegalMove) ∧
      VerifyError.illegalMove.isValueError = true ∧
      verify_task_api verifyEngine verifyPush 400 10 demoVerifyState 5 "zzzz" 1 0 =
        (demoVerifyState, .error (404, "task not found")) :=
  verify_illegal_move_no_write verifyEngine verifyPush 400 10 demoVerifyState 5
    "zzzz" 1 0 demoTask rfl rfl

end Chessbuddy
